import Mathlib

/-!
Verification of the `DocumentCache` query-result cache (`src/unnamed/part_002`)
against its natural-language specification.

The embedding models JavaScript values that flow through the cache as a `Json`
inductive (numbers as `Int`; floating-point specifics are irrelevant to the
verified properties).  JavaScript objects are association lists in insertion
order, mirroring property-enumeration order.  The two external pure libraries
whose behaviour the cache relies on are embedded from their documented
algorithms:

* `fast-json-stable-stringify` (used by `makeVariablesCacheKey`): JSON
  serialization with object keys sorted at every level; embedded as
  `stableStringify = jsonStringify ∘ sortJson`.
* `@wry/equality` (used by `writeQuery`'s change gate): structural deep
  equality with order-insensitive object comparison; embedded as `jsonEqual`.

The SHA-256 digest (`hash.js`) and Apollo's `InMemoryCache.transformDocument`
are opaque external collaborators: every definition and theorem is
parameterized over an arbitrary digest `d : String → String` and document
transform `t : Json → Json`, since no verified property depends on their
internals, only on their being pure functions.
-/

/-- A JSON-representable JavaScript value.  Objects carry their fields in
insertion order, as JavaScript objects do. -/
inductive Json where
  | null : Json
  | bool : Bool → Json
  | num : Int → Json
  | str : String → Json
  | arr : List Json → Json
  | obj : List (String × Json) → Json

/-- Property lookup on a JavaScript object modelled as an association list:
the first binding of the key wins (JavaScript objects have unique keys). -/
def alookup {α : Type} : List (String × α) → String → Option α
  | [], _ => none
  | (k', v') :: rest, k => if k' == k then some v' else alookup rest k

/-- Property assignment `o[k] = v` on a JavaScript object: overwrites the
existing binding in place, or appends a new binding at the end. -/
def aset {α : Type} : List (String × α) → String → α → List (String × α)
  | [], k, v => [(k, v)]
  | (k', v') :: rest, k, v =>
    if k' == k then (k, v) :: rest else (k', v') :: aset rest k v

/-- JSON string-literal escaping for one character (quote and backslash; other
characters pass through, which is faithful enough for the verified claims,
none of which depend on escaping details). -/
def escChar (c : Char) : String :=
  if c = '"' then "\\\"" else if c = '\\' then "\\\\" else String.singleton c

/-- A JSON string literal: `JSON.stringify` applied to a string. -/
def jsonStringLit (s : String) : String :=
  "\"" ++ String.join (s.toList.map escChar) ++ "\""

mutual

/-- `JSON.stringify`: serializes a value with object properties in insertion
order.  Used by `makeQueryCacheKey` on the normalized query document. -/
def jsonStringify : Json → String
  | Json.null => "null"
  | Json.bool true => "true"
  | Json.bool false => "false"
  | Json.num n => toString n
  | Json.str s => jsonStringLit s
  | Json.arr xs => "[" ++ jsonStringifyList xs ++ "]"
  | Json.obj fs => "\x7b" ++ jsonStringifyFields fs ++ "\x7d"

/-- Comma-separated serialization of array elements. -/
def jsonStringifyList : List Json → String
  | [] => ""
  | [x] => jsonStringify x
  | x :: y :: xs => jsonStringify x ++ "," ++ jsonStringifyList (y :: xs)

/-- Comma-separated serialization of object fields, in list order. -/
def jsonStringifyFields : List (String × Json) → String
  | [] => ""
  | [(k, v)] => jsonStringLit k ++ ":" ++ jsonStringify v
  | (k, v) :: p :: fs =>
    jsonStringLit k ++ ":" ++ jsonStringify v ++ "," ++ jsonStringifyFields (p :: fs)

end

/-- Ordering of object fields by key, the comparison used by
`fast-json-stable-stringify` when it sorts an object's keys. -/
def fieldLE (p q : String × Json) : Prop := p.1 ≤ q.1

instance : DecidableRel fieldLE := fun p q =>
  inferInstanceAs (Decidable (p.1 ≤ q.1))

instance : IsTotal (String × Json) fieldLE := ⟨fun p q => le_total p.1 q.1⟩

instance : IsTrans (String × Json) fieldLE := ⟨fun _ _ _ h1 h2 => le_trans h1 h2⟩

/-- Sorts an object's fields by key. -/
def sortFields (fs : List (String × Json)) : List (String × Json) :=
  List.insertionSort fieldLE fs

mutual

/-- Recursively sorts every object's fields by key.  `stableStringify` below
(the embedding of `fast-json-stable-stringify`) is plain `JSON.stringify`
after this normalization. -/
def sortJson : Json → Json
  | Json.null => Json.null
  | Json.bool b => Json.bool b
  | Json.num n => Json.num n
  | Json.str s => Json.str s
  | Json.arr xs => Json.arr (sortJsonList xs)
  | Json.obj fs => Json.obj (sortFields (sortJsonFields fs))

/-- `sortJson` mapped over array elements. -/
def sortJsonList : List Json → List Json
  | [] => []
  | x :: xs => sortJson x :: sortJsonList xs

/-- `sortJson` mapped over object field values. -/
def sortJsonFields : List (String × Json) → List (String × Json)
  | [] => []
  | (k, v) :: fs => (k, sortJson v) :: sortJsonFields fs

end

/-- The external `fast-json-stable-stringify` library: JSON serialization with
object properties sorted by key at every level, so insertion order never
affects the output. -/
def stableStringify (j : Json) : String :=
  jsonStringify (sortJson j)

mutual

/-- The external `@wry/equality` deep-equality check on JSON-representable
values: primitives by `===`, arrays elementwise, objects by equal key count
plus every field of the left object present and deep-equal in the right. -/
def jsonEqual : Json → Json → Bool
  | Json.null, Json.null => true
  | Json.bool a, Json.bool b => a == b
  | Json.num a, Json.num b => a == b
  | Json.str a, Json.str b => a == b
  | Json.arr xs, Json.arr ys => jsonEqualList xs ys
  | Json.obj fs, Json.obj gs => fs.length == gs.length && jsonEqualFields fs gs
  | _, _ => false

/-- Elementwise deep equality of arrays. -/
def jsonEqualList : List Json → List Json → Bool
  | [], [] => true
  | x :: xs, y :: ys => jsonEqual x y && jsonEqualList xs ys
  | _, _ => false

/-- Every field of the first object is present and deep-equal in the second. -/
def jsonEqualFields : List (String × Json) → List (String × Json) → Bool
  | [], _ => true
  | (k, v) :: fs, gs =>
    (match alookup gs k with
     | some w => jsonEqual v w
     | none => false) && jsonEqualFields fs gs

end

/-- JavaScript truthiness test used by `getCachedData`'s `if (!data)` check:
`null`, `false`, `0` and the empty string are falsy. -/
def isFalsy : Json → Bool
  | Json.null => true
  | Json.bool false => true
  | Json.num n => n == 0
  | Json.str s => s == ""
  | _ => false

/-- A `DocumentNode` instance: `iid` models JavaScript reference identity (the
`Map` in `queryToQueryCacheKeyMap` is keyed by reference), `doc` the structural
content of the parsed query document. -/
structure DocumentNode where
  iid : Nat
  doc : Json

/-- Lookup in the per-reference memo `queryToQueryCacheKeyMap` (a JavaScript
`Map` keyed by object reference, modelled by `iid`). -/
def memoLookup : List (DocumentNode × String) → DocumentNode → Option String
  | [], _ => none
  | (p, h) :: rest, q => if p.iid == q.iid then some h else memoLookup rest q

/-- `Map.set` on the per-reference memo: overwrite the entry for this
reference, or append a new one. -/
def memoSet : List (DocumentNode × String) → DocumentNode → String → List (DocumentNode × String)
  | [], q, h => [(q, h)]
  | (p, h') :: rest, q, h =>
    if p.iid == q.iid then (q, h) :: rest else (p, h') :: memoSet rest q h

/-- The un-memoized hash computation of `makeQueryCacheKey`:
`sha256(JSON.stringify(transformDocument(query)))`, with the digest `d` and
the document transform `t` as opaque external collaborators. -/
def computeHash (t : Json → Json) (d : String → String) (q : DocumentNode) : String :=
  d (jsonStringify (t q.doc))

/-- `DocumentCache.makeQueryCacheKey`, acting on the memo component of the
state: return the memoized hash when present (and truthy, per the
`if (existing)` check, so a stored empty string is recomputed), otherwise
compute the hash, memoize it, and return it. -/
def mqckM (t : Json → Json) (d : String → String)
    (m : List (DocumentNode × String)) (q : DocumentNode) : String × List (DocumentNode × String) :=
  match memoLookup m q with
  | some h =>
    if h == "" then
      let h' := computeHash t d q
      (h', memoSet m q h')
    else (h, m)
  | none =>
    let h' := computeHash t d q
    (h', memoSet m q h')

/-- The `__META` record of a `DocumentCacheObject`: an optional variant tag
plus the always-empty `extraRootIds` placeholder. -/
structure MetaRec where
  type : Option String
  extraRootIds : List String

/-- A `DocumentCacheObject` snapshot: the two-level mapping query-hash →
variables-key → result, plus the optional `__META` record.  (In JavaScript
`__META` is one more property of the same object; it is kept separate here
because query cache keys are hex digests and never collide with the literal
property name `__META`.) -/
structure StoreObj where
  entries : List (String × List (String × Json))
  meta : Option MetaRec

/-- `makeDocumentCacheObject()`: the empty store carrying the variant tag. -/
def makeDocumentCacheObject : StoreObj :=
  ⟨[], some ⟨some "DocumentCache", []⟩⟩

/-- The full mutable state of a `DocumentCache` instance: the Document Store
(`data`), the Watch Registry (`watches`, with watch registrations identified
by a `Nat` modelling the reference identity of the `Cache.WatchOptions`
object), the per-reference query-key memo, and the ordered `writeQuery`
operation-subscriber list (callbacks identified by `Nat` reference ids). -/
structure CacheState where
  data : StoreObj
  watches : List (String × List (String × List Nat))
  memo : List (DocumentNode × String)
  subs : List Nat

/-- The state produced by the `DocumentCache` constructor. -/
def initialState : CacheState :=
  ⟨makeDocumentCacheObject, [], [], []⟩

/-- `DocumentCache.makeVariablesCacheKey`: `fastStringify(variables)`.
(The `variables` argument is named `vars` since `variables` is reserved.) -/
def makeVariablesCacheKey (vars : Json) : String :=
  stableStringify vars

/-- State-level `makeQueryCacheKey`: only the memo component changes. -/
def makeQueryCacheKey (t : Json → Json) (d : String → String)
    (st : CacheState) (q : DocumentNode) : String × CacheState :=
  let r := mqckM t d st.memo q
  (r.1, { st with memo := r.2 })

/-- The raw stored entry at a (query-hash, variables-key) pair:
`this.data[queryCacheKey]?.[variablesCacheKey]`, with no truthiness
filtering. -/
def storedRaw (st : CacheState) (qk vk : String) : Option Json :=
  match alookup st.data.entries qk with
  | some qc => alookup qc vk
  | none => none

/-- `DocumentCache.getCachedData`: hash the query, canonicalize the
variables, look up the two-level store; the `if (!data) return null` check
turns any falsy stored value into an absent result. -/
def getCachedData (t : Json → Json) (d : String → String)
    (st : CacheState) (q : DocumentNode) (vars : Json) : Option Json × CacheState :=
  let r := mqckM t d st.memo q
  let st' : CacheState := { st with memo := r.2 }
  match alookup st.data.entries r.1 with
  | none => (none, st')
  | some qc =>
    match alookup qc (makeVariablesCacheKey vars) with
    | none => (none, st')
    | some dta => (if isFalsy dta then none else some dta, st')

/-- `DocumentCache.read`: delegates to `getCachedData`. -/
def read (t : Json → Json) (d : String → String)
    (st : CacheState) (q : DocumentNode) (vars : Json) : Option Json × CacheState :=
  getCachedData t d st q vars

/-- The options record of `DocumentCache.write`; `vars` models the
`variables` field (`variables` is reserved). -/
structure WriteOptions where
  query : DocumentNode
  vars : Json
  result : Json

/-- `DocumentCache.write`: unconditionally store `result` at the
(query-hash, variables-key) pair, creating the query level when absent.
The returned `Reference` acknowledgement `{ __ref: "" }` carries no
information and is omitted. -/
def write (t : Json → Json) (d : String → String)
    (st : CacheState) (w : WriteOptions) : CacheState :=
  let r := mqckM t d st.memo w.query
  let qc := (alookup st.data.entries r.1).getD []
  let qc' := aset qc (makeVariablesCacheKey w.vars) w.result
  { st with memo := r.2, data := { st.data with entries := aset st.data.entries r.1 qc' } }

/-- The result shape of `DocumentCache.diff`: the payload, the completeness
flag, and whether a `MissingFieldError` diagnostic was attached. -/
structure DiffResult where
  result : Json
  complete : Bool
  missing : Bool

/-- `DocumentCache.diff`: all-or-nothing — a (truthy) cached entry is returned
complete, otherwise an empty-object placeholder is returned incomplete with a
synthesized missing-field diagnostic. -/
def diff (t : Json → Json) (d : String → String)
    (st : CacheState) (q : DocumentNode) (vars : Json) : DiffResult × CacheState :=
  let r := getCachedData t d st q vars
  match r.1 with
  | some dta => (⟨dta, true, false⟩, r.2)
  | none => (⟨Json.obj [], false, true⟩, r.2)

/-- The watch set registered at a (query-hash, variables-key) pair:
`this.watches[qk]?.[vk]`, defaulting to the empty set.  Watch registrations
are identified by the reference identity of their options object (`Nat`). -/
def watchSet (st : CacheState) (qk vk : String) : List Nat :=
  match alookup st.watches qk with
  | some qc => (alookup qc vk).getD []
  | none => []

/-- `DocumentCache.watch`: get or create the watch set for the
(query-hash, variables-key) pair of the registration, add the registration
object to it (`Set.add` is a no-op on an already-present member), and store
it back. -/
def watchOp (t : Json → Json) (d : String → String)
    (st : CacheState) (q : DocumentNode) (vars : Json) (wid : Nat) : CacheState :=
  let r := mqckM t d st.memo q
  let vk := makeVariablesCacheKey vars
  let qc := (alookup st.watches r.1).getD []
  let s := (alookup qc vk).getD []
  let s' := if wid ∈ s then s else s ++ [wid]
  { st with memo := r.2, watches := aset st.watches r.1 (aset qc vk s') }

/-- The unsubscribe closure returned by `DocumentCache.watch`:
`watchesSet.delete(watch)` on the set captured at registration time, which is
the live set stored at the registration's (query-hash, variables-key) pair. -/
def unwatch (st : CacheState) (qk vk : String) (wid : Nat) : CacheState :=
  match alookup st.watches qk with
  | none => st
  | some qc =>
    match alookup qc vk with
    | none => st
    | some s =>
      { st with watches := aset st.watches qk (aset qc vk (s.filter (fun w => !(w == wid)))) }

/-- Decidable statement that the registration `wid` occurs in no watch set of
the registry other than the one at `(qk, vk)` — the situation of a real
registration, since each `watch` call's options object is a fresh reference
placed in exactly one set. -/
def widOnlyAt (st : CacheState) (wid : Nat) (qk vk : String) : Bool :=
  st.watches.all (fun ql =>
    ql.2.all (fun vl => !(vl.2.contains wid) || (ql.1 == qk && vl.1 == vk)))

/-- The options record of `DocumentCache.writeQuery`; `vars` models the
`variables` field (`variables` is reserved). -/
structure WriteQueryOptions where
  query : DocumentNode
  vars : Json
  data : Json

/-- One invocation of a watch callback: `w.callback({ result, complete })`. -/
structure WatchNotification where
  wid : Nat
  result : Json
  complete : Bool

/-- One invocation of an operation-bus subscriber, carrying the full
`writeQuery` options it receives. -/
structure BusEvent where
  cb : Nat
  options : WriteQueryOptions

/-- The outcome of a `writeQuery` call: the new state, the watch-callback
invocations, and the operation-bus invocations it performed (in invocation
order). -/
structure WriteQueryOutput where
  state : CacheState
  notifications : List WatchNotification
  busEvents : List BusEvent

/-- `equal(cachedData, data)` where `cachedData` may be `undefined` (absent):
a present value compares by deep equality, an absent one compares unequal to
every JSON value. -/
def optJsonEqual : Option Json → Json → Bool
  | some c, dta => jsonEqual c dta
  | none, _ => false

/-- `DocumentCache.writeQuery`: look up the existing entry, compute the
deep-equality change gate, persist via the `write` path (`super.writeQuery`
delegates to `this.write` with `result := data`), notify every watch
registration at the exact key when and only when the gate saw a difference,
then unconditionally invoke every `writeQuery` operation subscriber with the
full options. -/
def writeQuery (t : Json → Json) (d : String → String)
    (st : CacheState) (o : WriteQueryOptions) : WriteQueryOutput :=
  let r := mqckM t d st.memo o.query
  let vk := makeVariablesCacheKey o.vars
  let cachedData : Option Json :=
    match alookup st.data.entries r.1 with
    | some qc => alookup qc vk
    | none => none
  let isDiff := !(optJsonEqual cachedData o.data)
  let st1 : CacheState := { st with memo := r.2 }
  let st2 := write t d st1 ⟨o.query, o.vars, o.data⟩
  let variablesLevel := watchSet st2 r.1 vk
  let notifs := if isDiff then variablesLevel.map (fun w => ⟨w, o.data, true⟩) else []
  let bus := st2.subs.map (fun cb => ⟨cb, o⟩)
  ⟨st2, notifs, bus⟩

/-- A sequence of `writeQuery` calls, collecting all watch notifications. -/
def runWrites (t : Json → Json) (d : String → String) :
    CacheState → List WriteQueryOptions → CacheState × List WatchNotification
  | st, [] => (st, [])
  | st, o :: os =>
    let out := writeQuery t d st o
    let rest := runWrites t d out.state os
    (rest.1, out.notifications ++ rest.2)

/-- `DocumentCache.subscribe("writeQuery", callback)`: push the callback onto
the ordered subscriber sequence. -/
def subscribeWriteQuery (st : CacheState) (cb : Nat) : CacheState :=
  { st with subs := st.subs ++ [cb] }

/-- The unsubscribe closure returned by `subscribe`: replace the subscriber
sequence by its filtering on `cb !== callback`. -/
def unsubscribeWriteQuery (st : CacheState) (cb : Nat) : CacheState :=
  { st with subs := st.subs.filter (fun c => !(c == cb)) }

/-- `DocumentCache.restore`: install the given snapshot as `this.data`
verbatim; nothing else changes. -/
def restoreOp (st : CacheState) (s : StoreObj) : CacheState :=
  { st with data := s }

/-- `DocumentCache.extract`: return `this.data` (the optimistic flag is
ignored). -/
def extract (st : CacheState) : StoreObj :=
  st.data

/-- The snapshot a hydrating caller passes when no serialized state exists:
the empty object `{}` (see `getApolloClient` in `src/lib/apollo.ts`). -/
def emptySnapshot : StoreObj :=
  ⟨[], none⟩

/-- `isDocumentCache`: `shape.__META && "type" in shape.__META &&
shape.__META.type === "DocumentCache"`. -/
def isDocumentCache (shape : StoreObj) : Bool :=
  match shape.meta with
  | some m =>
    match m.type with
    | some ty => ty == "DocumentCache"
    | none => false
  | none => false

/-- `DocumentCache.readFragment`: throws synchronously; the state is
untouched. -/
def readFragment (st : CacheState) (_options : Json) :
    Except String (Option Json) × CacheState :=
  (Except.error "DocumentCache: cache.readFragment is not implemented", st)

/-- `DocumentCache.writeFragment`: throws synchronously; the state is
untouched. -/
def writeFragment (st : CacheState) (_options : Json) :
    Except String (Option Json) × CacheState :=
  (Except.error "DocumentCache: cache.writeFragment is not implemented", st)

/-- `DocumentCache.updateFragment`: throws synchronously; the state is
untouched. -/
def updateFragment (st : CacheState) (_options : Json) :
    Except String (Option Json) × CacheState :=
  (Except.error "DocumentCache: cache.updateFragment is not implemented", st)

theorem alookup_aset_self {α : Type} (l : List (String × α)) (k : String) (v : α) :
    alookup (aset l k v) k = some v := by
  induction l with
  | nil => simp [aset, alookup]
  | cons p rest ih =>
    obtain ⟨k', v'⟩ := p
    by_cases h : k' = k
    · simp [aset, alookup, h]
    · simp [aset, alookup, h, ih]

theorem alookup_aset_ne {α : Type} (l : List (String × α)) (k k' : String) (v : α)
    (h : k' ≠ k) : alookup (aset l k v) k' = alookup l k' := by
  induction l with
  | nil => simp [aset, alookup, Ne.symm h]
  | cons p rest ih =>
    obtain ⟨k₀, v₀⟩ := p
    by_cases h0 : k₀ = k
    · subst h0
      simp [aset, alookup, Ne.symm h]
    · simp [aset, alookup, h0, ih]

theorem alookup_mem {α : Type} (l : List (String × α)) (k : String) (v : α)
    (h : alookup l k = some v) : (k, v) ∈ l := by
  induction l with
  | nil => simp [alookup] at h
  | cons p rest ih =>
    obtain ⟨k', v'⟩ := p
    by_cases h0 : k' = k
    · subst h0
      simp [alookup] at h
      simp [h]
    · simp [alookup, h0] at h
      exact List.mem_cons_of_mem _ (ih h)

theorem memoLookup_memoSet_self (m : List (DocumentNode × String)) (q : DocumentNode)
    (h : String) : memoLookup (memoSet m q h) q = some h := by
  induction m with
  | nil => simp [memoSet, memoLookup]
  | cons p rest ih =>
    obtain ⟨p₁, h'⟩ := p
    by_cases h0 : p₁.iid = q.iid
    · simp [memoSet, memoLookup, h0]
    · simp [memoSet, memoLookup, h0, ih]

theorem memoLookup_some (m : List (DocumentNode × String)) (q : DocumentNode) (h : String)
    (hl : memoLookup m q = some h) : ∃ p ∈ m, p.1.iid = q.iid ∧ p.2 = h := by
  induction m with
  | nil => simp [memoLookup] at hl
  | cons p rest ih =>
    obtain ⟨p₁, h'⟩ := p
    by_cases h0 : p₁.iid = q.iid
    · simp [memoLookup, h0] at hl
      exact ⟨(p₁, h'), by simp, h0, hl⟩
    · simp [memoLookup, h0] at hl
      obtain ⟨p₀, hp₀, hiid, hh⟩ := ih hl
      exact ⟨p₀, List.mem_cons_of_mem _ hp₀, hiid, hh⟩

theorem mem_memoSet (m : List (DocumentNode × String)) (q : DocumentNode) (h : String)
    (p : DocumentNode × String) (hp : p ∈ memoSet m q h) : p ∈ m ∨ p = (q, h) := by
  induction m with
  | nil => simp [memoSet] at hp; simp [hp]
  | cons p₀ rest ih =>
    obtain ⟨q₀, h₀⟩ := p₀
    by_cases h0 : q₀.iid = q.iid
    · simp [memoSet, h0] at hp
      rcases hp with hp | hp
      · right; simp [hp]
      · left; exact List.mem_cons_of_mem _ hp
    · simp [memoSet, h0] at hp
      rcases hp with hp | hp
      · left; simp [hp]
      · rcases ih hp with hm | he
        · left; exact List.mem_cons_of_mem _ hm
        · right; exact he

theorem mqckM_stable (t : Json → Json) (d : String → String)
    (m : List (DocumentNode × String)) (q : DocumentNode) :
    (mqckM t d (mqckM t d m q).2 q).1 = (mqckM t d m q).1 := by
  cases hl : memoLookup m q with
  | none =>
    have h2 : mqckM t d m q = (computeHash t d q, memoSet m q (computeHash t d q)) := by
      simp [mqckM, hl]
    rw [h2]
    unfold mqckM
    rw [memoLookup_memoSet_self]
    by_cases h0 : computeHash t d q = "" <;> simp [h0]
  | some h =>
    by_cases h1 : h = ""
    · subst h1
      have h2 : mqckM t d m q = (computeHash t d q, memoSet m q (computeHash t d q)) := by
        simp [mqckM, hl]
      rw [h2]
      unfold mqckM
      rw [memoLookup_memoSet_self]
      by_cases h0 : computeHash t d q = "" <;> simp [h0]
    · have h2 : mqckM t d m q = (h, m) := by simp [mqckM, hl, h1]
      rw [h2]
      simp [mqckM, hl, h1]

theorem getCachedData_write_same (t : Json → Json) (d : String → String)
    (st : CacheState) (w : WriteOptions) :
    (getCachedData t d (write t d st w) w.query w.vars).1
      = (if isFalsy w.result then none else some w.result) := by
  have hst : (write t d st w).memo = (mqckM t d st.memo w.query).2 := rfl
  have hdat : (write t d st w).data.entries
      = aset st.data.entries (mqckM t d st.memo w.query).1
          (aset ((alookup st.data.entries (mqckM t d st.memo w.query).1).getD [])
            (makeVariablesCacheKey w.vars) w.result) := rfl
  unfold getCachedData
  simp only [hst, hdat, mqckM_stable, alookup_aset_self]

theorem getCachedData_none (t : Json → Json) (d : String → String)
    (st : CacheState) (q : DocumentNode) (vars : Json)
    (h : storedRaw st (mqckM t d st.memo q).1 (makeVariablesCacheKey vars) = none) :
    (getCachedData t d st q vars).1 = none := by
  unfold storedRaw at h
  unfold getCachedData
  cases h1 : alookup st.data.entries (mqckM t d st.memo q).1 with
  | none => simp [h1]
  | some qc =>
    simp only [h1] at h
    simp [h1, h]

theorem diff_eval (t : Json → Json) (d : String → String)
    (st : CacheState) (q : DocumentNode) (vars : Json) :
    (diff t d st q vars).1
      = (match (getCachedData t d st q vars).1 with
         | some dta => (⟨dta, true, false⟩ : DiffResult)
         | none => ⟨Json.obj [], false, true⟩) := by
  unfold diff
  cases h : (getCachedData t d st q vars).1 <;> simp [h]

/-- C1 (amended): for a (query, variables) pair with no stored entry, `read`
returns absent and `diff` reports incomplete; after a `write` or `writeQuery`
of a value `v` at that pair, `read` returns exactly `v` and `diff` reports
complete with result `v` — provided `v` is truthy.  (The original claim's
"for all JSON-representable values v" fails: `getCachedData`'s `if (!data)`
check makes a stored falsy value — `null`, `false`, `0`, `""` — read back as
absent; see the counterexample.) -/
theorem claim1_all_or_nothing_read (t : Json → Json) (d : String → String)
    (st : CacheState) (q : DocumentNode) (vars v : Json)
    (hv : isFalsy v = false) :
    (storedRaw st (mqckM t d st.memo q).1 (makeVariablesCacheKey vars) = none →
        (read t d st q vars).1 = none
      ∧ (diff t d st q vars).1.complete = false
      ∧ (diff t d st q vars).1.missing = true)
    ∧ (read t d (write t d st ⟨q, vars, v⟩) q vars).1 = some v
    ∧ (diff t d (write t d st ⟨q, vars, v⟩) q vars).1 = ⟨v, true, false⟩
    ∧ (read t d (writeQuery t d st ⟨q, vars, v⟩).state q vars).1 = some v
    ∧ (diff t d (writeQuery t d st ⟨q, vars, v⟩).state q vars).1 = ⟨v, true, false⟩ := by
  have hwq : (writeQuery t d st ⟨q, vars, v⟩).state
      = write t d { st with memo := (mqckM t d st.memo q).2 } ⟨q, vars, v⟩ := rfl
  refine ⟨?_, ?_, ?_, ?_, ?_⟩
  · intro h
    have hr := getCachedData_none t d st q vars h
    refine ⟨hr, ?_, ?_⟩ <;> rw [diff_eval, hr]
  · show (getCachedData t d (write t d st ⟨q, vars, v⟩) q vars).1 = some v
    rw [getCachedData_write_same t d st ⟨q, vars, v⟩]
    simp [hv]
  · rw [diff_eval]
    have : (getCachedData t d (write t d st ⟨q, vars, v⟩) q vars).1 = some v := by
      rw [getCachedData_write_same t d st ⟨q, vars, v⟩]
      simp [hv]
    rw [this]
  · rw [hwq]
    show (getCachedData t d (write t d _ ⟨q, vars, v⟩) q vars).1 = some v
    rw [getCachedData_write_same]
    simp [hv]
  · rw [hwq, diff_eval]
    have : (getCachedData t d
        (write t d { st with memo := (mqckM t d st.memo q).2 } ⟨q, vars, v⟩) q vars).1
        = some v := by
      rw [getCachedData_write_same]
      simp [hv]
    rw [this]

/-- Witness for C1: concretely, after writing the truthy value 1 at a fresh
key, `read` returns it. -/
theorem claim1_all_or_nothing_read_witness :
    isFalsy (Json.num 1) = false
    ∧ (read (fun j => j) (fun s => s)
        (write (fun j => j) (fun s => s) initialState
          ⟨⟨0, Json.null⟩, Json.obj [], Json.num 1⟩)
        ⟨0, Json.null⟩ (Json.obj [])).1 = some (Json.num 1) :=
  ⟨by decide,
   (claim1_all_or_nothing_read (fun j => j) (fun s => s) initialState
      ⟨0, Json.null⟩ (Json.obj []) (Json.num 1) (by decide)).2.1⟩

/-- C1 counterexample: writing the JSON value `0` (a JSON-representable value)
at a fresh key and reading it back yields absent, and `diff` still reports
incomplete — the claim's "read returns exactly v ... for all
JSON-representable values v" is false for falsy values. -/
theorem claim1_counterexample :
    (read (fun j => j) (fun s => s)
        (write (fun j => j) (fun s => s) initialState
          ⟨⟨0, Json.null⟩, Json.obj [], Json.num 0⟩)
        ⟨0, Json.null⟩ (Json.obj [])).1 = none
    ∧ (diff (fun j => j) (fun s => s)
        (write (fun j => j) (fun s => s) initialState
          ⟨⟨0, Json.null⟩, Json.obj [], Json.num 0⟩)
        ⟨0, Json.null⟩ (Json.obj [])).1.complete = false := by
  exact ⟨rfl, rfl⟩

/-- C6: `restore(extract())` reproduces an equivalent Document Store — in
fact the identical state, since `extract` returns the store and `restore`
installs its argument verbatim — so `read` results are identical for every
(query, variables) pair. -/
theorem claim6_restore_extract_roundtrip (t : Json → Json) (d : String → String)
    (st : CacheState) (q : DocumentNode) (vars : Json) :
    restoreOp st (extract st) = st
    ∧ (read t d (restoreOp st (extract st)) q vars).1 = (read t d st q vars).1 :=
  ⟨rfl, rfl⟩

/-- C10: `restore` installs any snapshot verbatim with no validation and
without reinstating `__META`; a subsequent `extract` returns the snapshot
itself, so restoring the `__META`-less empty object used at hydration yields
an extracted snapshot with no variant tag that `isDocumentCache` rejects
(while a constructor-made store is accepted). -/
theorem claim10_restore_verbatim (st : CacheState) (s : StoreObj) :
    extract (restoreOp st s) = s
    ∧ (restoreOp st s).watches = st.watches
    ∧ (restoreOp st s).memo = st.memo
    ∧ (restoreOp st s).subs = st.subs
    ∧ isDocumentCache (extract (restoreOp st s)) = isDocumentCache s
    ∧ (extract (restoreOp st emptySnapshot)).meta = none
    ∧ isDocumentCache (extract (restoreOp st emptySnapshot)) = false
    ∧ isDocumentCache makeDocumentCacheObject = true :=
  ⟨rfl, rfl, rfl, rfl, rfl, rfl, rfl, by rfl⟩

/-- C8: `readFragment`, `writeFragment` and `updateFragment` each raise an
unsupported-operation error synchronously for every input, and none of them
changes any cache state. -/
theorem claim8_fragment_operations_throw (st : CacheState) (o : Json) :
    ((readFragment st o).1
        = Except.error "DocumentCache: cache.readFragment is not implemented"
      ∧ (readFragment st o).2 = st)
    ∧ ((writeFragment st o).1
        = Except.error "DocumentCache: cache.writeFragment is not implemented"
      ∧ (writeFragment st o).2 = st)
    ∧ ((updateFragment st o).1
        = Except.error "DocumentCache: cache.updateFragment is not implemented"
      ∧ (updateFragment st o).2 = st) :=
  ⟨⟨rfl, rfl⟩, ⟨rfl, rfl⟩, ⟨rfl, rfl⟩⟩

theorem filter_map_busEvent_count (l : List Nat) (o : WriteQueryOptions) (cb : Nat) :
    ((l.map (fun c => (⟨c, o⟩ : BusEvent))).filter (fun e => e.cb == cb)).length
      = l.count cb := by
  induction l with
  | nil => rfl
  | cons a rest ih =>
    by_cases h : a = cb
    · simp [h, List.count_cons, ih]
    · simp [h, List.count_cons, ih]

/-- C3: every `writeQuery` call invokes the operation-bus subscribers exactly
as the current subscriber sequence dictates — one invocation per registration,
in order, each carrying the full write options — for every state, query,
variables and data, regardless of whether the written value differs from the
stored one; a callback occurring once in the sequence (e.g. freshly pushed by
`subscribe("writeQuery", cb)`) is therefore invoked exactly once. -/
theorem claim3_bus_unconditional (t : Json → Json) (d : String → String)
    (st : CacheState) (o : WriteQueryOptions) (cb : Nat) :
    (writeQuery t d st o).busEvents = st.subs.map (fun c => ⟨c, o⟩)
    ∧ ((writeQuery t d st o).busEvents.filter (fun e => e.cb == cb)).length
        = st.subs.count cb
    ∧ (writeQuery t d (subscribeWriteQuery st cb) o).busEvents
        = (st.subs ++ [cb]).map (fun c => ⟨c, o⟩) := by
  refine ⟨rfl, ?_, rfl⟩
  have hb : (writeQuery t d st o).busEvents = st.subs.map (fun c => ⟨c, o⟩) := rfl
  rw [hb]
  exact filter_map_busEvent_count st.subs o cb

/-- C9 counterexample: subscribing the same callback reference twice and then
invoking one unsubscribe function removes both registrations (`filter` drops
every matching reference), leaving no registration of that reference — the
claim requires the other registration to remain. -/
theorem claim9_counterexample :
    (subscribeWriteQuery (subscribeWriteQuery initialState 7) 7).subs = [7, 7]
    ∧ (unsubscribeWriteQuery
        (subscribeWriteQuery (subscribeWriteQuery initialState 7) 7) 7).subs = [] :=
  ⟨rfl, rfl⟩

theorem count_filter_ne (l : List Nat) (cb c : Nat) :
    (l.filter (fun x => !(x == cb))).count c = if c = cb then 0 else l.count c := by
  by_cases hccb : c = cb
  · subst hccb
    rw [if_pos rfl, List.count_eq_zero]
    intro hmem
    have := List.of_mem_filter hmem
    simp at this
  · simp only [if_neg hccb]
    induction l with
    | nil => rfl
    | cons a rest ih =>
      by_cases hac : a = cb
      · subst hac
        simp [List.count_cons, Ne.symm hccb, ih]
      · simp [List.count_cons, hac, ih]

/-- C9 (amended): invoking the unsubscribe function returned by
`subscribe("writeQuery", cb)` removes every registration whose callback
reference matches `cb` from the subscriber sequence (so a reference that was
subscribed more than once loses all of its registrations at once), leaves the
registration count of every other reference unchanged, and preserves the
relative order of the remaining subscribers (the result is a sublist of the
original sequence). -/
theorem claim9_unsubscribe_amended (st : CacheState) (cb : Nat) :
    (∀ c : Nat, (unsubscribeWriteQuery st cb).subs.count c
        = if c = cb then 0 else st.subs.count c)
    ∧ (unsubscribeWriteQuery st cb).subs.Sublist st.subs := by
  constructor
  · intro c
    exact count_filter_ne st.subs cb c
  · exact List.filter_sublist st.subs

/-- Strict key ordering on object fields, used to show that sorting a
permutation of a duplicate-free field list is unique. -/
def fieldLT (p q : String × Json) : Prop := p.1 < q.1

instance : IsAntisymm (String × Json) fieldLT :=
  ⟨fun _ _ h1 h2 => absurd h2 (lt_asymm h1)⟩

theorem sortJsonFields_eq_map (l : List (String × Json)) :
    sortJsonFields l = l.map (fun p => (p.1, sortJson p.2)) := by
  induction l with
  | nil => rfl
  | cons p rest ih =>
    obtain ⟨k, v⟩ := p
    simp [sortJsonFields, ih]

theorem pairwise_lt_of_le_nodup (l : List (String × Json))
    (hs : List.Pairwise fieldLE l) (hnd : (l.map Prod.fst).Nodup) :
    List.Pairwise fieldLT l := by
  have hne : List.Pairwise (fun a b : String × Json => a.1 ≠ b.1) l :=
    (List.pairwise_map).mp hnd
  exact (hs.and hne).imp (fun hab => lt_of_le_of_ne hab.1 hab.2)

theorem sortFields_perm_eq (l1 l2 : List (String × Json))
    (hperm : l1.Perm l2) (hnd : (l1.map Prod.fst).Nodup) :
    sortFields l1 = sortFields l2 := by
  have hp1 : (sortFields l1).Perm l1 := List.perm_insertionSort fieldLE l1
  have hp2 : (sortFields l2).Perm l2 := List.perm_insertionSort fieldLE l2
  have hperm' : (sortFields l1).Perm (sortFields l2) :=
    hp1.trans (hperm.trans hp2.symm)
  have hs1 : List.Sorted fieldLE (sortFields l1) := List.sorted_insertionSort fieldLE l1
  have hs2 : List.Sorted fieldLE (sortFields l2) := List.sorted_insertionSort fieldLE l2
  have hnd1 : ((sortFields l1).map Prod.fst).Nodup := ((hp1.map Prod.fst).nodup_iff).mpr hnd
  have hnd2 : ((sortFields l2).map Prod.fst).Nodup :=
    ((hperm'.map Prod.fst).nodup_iff).mp hnd1
  exact List.eq_of_perm_of_sorted hperm'
    (pairwise_lt_of_le_nodup _ hs1 hnd1) (pairwise_lt_of_le_nodup _ hs2 hnd2)

theorem sortJsonFields_keys (l : List (String × Json)) :
    (sortJsonFields l).map Prod.fst = l.map Prod.fst := by
  rw [sortJsonFields_eq_map, List.map_map]
  rfl

/-- C4: the variables cache key (`fastStringify`) is insertion-order
invariant: two variables maps holding identical key/value bindings in any
insertion orders produce the same key.  (Determinism and totality hold by
construction: `makeVariablesCacheKey` is a total function.) -/
theorem claim4_variables_key_stable (l1 l2 : List (String × Json))
    (hperm : l1.Perm l2) (hnd : (l1.map Prod.fst).Nodup) :
    makeVariablesCacheKey (Json.obj l1) = makeVariablesCacheKey (Json.obj l2) := by
  have hsorted : sortJson (Json.obj l1) = sortJson (Json.obj l2) := by
    show Json.obj (sortFields (sortJsonFields l1)) = Json.obj (sortFields (sortJsonFields l2))
    have hpermf : (sortJsonFields l1).Perm (sortJsonFields l2) := by
      rw [sortJsonFields_eq_map, sortJsonFields_eq_map]
      exact hperm.map _
    have hndf : ((sortJsonFields l1).map Prod.fst).Nodup := by
      rw [sortJsonFields_keys]
      exact hnd
    rw [sortFields_perm_eq _ _ hpermf hndf]
  show jsonStringify (sortJson (Json.obj l1)) = jsonStringify (sortJson (Json.obj l2))
  rw [hsorted]

/-- Witness for C4: two concrete two-field maps in opposite insertion orders
get the same variables cache key. -/
theorem claim4_variables_key_stable_witness :
    ([("b", Json.num 2), ("a", Json.num 1)]).Perm [("a", Json.num 1), ("b", Json.num 2)]
    ∧ ((([("b", Json.num 2), ("a", Json.num 1)] :
          List (String × Json)).map Prod.fst).Nodup)
    ∧ makeVariablesCacheKey (Json.obj [("b", Json.num 2), ("a", Json.num 1)])
        = makeVariablesCacheKey (Json.obj [("a", Json.num 1), ("b", Json.num 2)]) :=
  ⟨List.Perm.swap _ _ _, by decide,
   claim4_variables_key_stable _ _ (List.Perm.swap _ _ _) (by decide)⟩

/-- Invariant of the query-key memo: every entry stores exactly the hash the
un-memoized computation would produce for its key.  It holds of the empty
memo the constructor installs and is preserved by `makeQueryCacheKey`, which
only ever stores freshly computed hashes. -/
def MemoInv (t : Json → Json) (d : String → String)
    (m : List (DocumentNode × String)) : Prop :=
  ∀ p ∈ m, p.2 = computeHash t d p.1

/-- JavaScript reference semantics for the memo keys relative to a query
instance: any memo entry whose key has the same reference identity carries
the same document content (a JavaScript reference has exactly one content). -/
def RefCoherent (m : List (DocumentNode × String)) (q : DocumentNode) : Prop :=
  ∀ p ∈ m, p.1.iid = q.iid → p.1.doc = q.doc

theorem mqckM_correct (t : Json → Json) (d : String → String)
    (m : List (DocumentNode × String)) (q : DocumentNode)
    (hinv : MemoInv t d m) (hc : RefCoherent m q) :
    (mqckM t d m q).1 = computeHash t d q := by
  cases hl : memoLookup m q with
  | none => simp [mqckM, hl]
  | some h =>
    obtain ⟨p, hp, hiid, hh⟩ := memoLookup_some m q h hl
    have hdoc : p.1.doc = q.doc := hc p hp hiid
    have hval : h = computeHash t d q := by
      rw [← hh, hinv p hp]
      unfold computeHash
      rw [hdoc]
    by_cases h1 : h = ""
    · simp [mqckM, hl, h1]
    · have hfst : (mqckM t d m q).1 = h := by simp [mqckM, hl, h1]
      rw [hfst, hval]

theorem memoInv_memoSet (t : Json → Json) (d : String → String)
    (m : List (DocumentNode × String)) (q : DocumentNode)
    (hinv : MemoInv t d m) :
    MemoInv t d (memoSet m q (computeHash t d q)) := by
  intro p hp
  rcases mem_memoSet m q _ p hp with hm | he
  · exact hinv p hm
  · rw [he]

theorem memoInv_mqckM (t : Json → Json) (d : String → String)
    (m : List (DocumentNode × String)) (q : DocumentNode)
    (hinv : MemoInv t d m) :
    MemoInv t d (mqckM t d m q).2 := by
  cases hl : memoLookup m q with
  | none =>
    have : (mqckM t d m q).2 = memoSet m q (computeHash t d q) := by simp [mqckM, hl]
    rw [this]
    exact memoInv_memoSet t d m q hinv
  | some h =>
    by_cases h1 : h = ""
    · have : (mqckM t d m q).2 = memoSet m q (computeHash t d q) := by
        simp [mqckM, hl, h1]
      rw [this]
      exact memoInv_memoSet t d m q hinv
    · have : (mqckM t d m q).2 = m := by simp [mqckM, hl, h1]
      rw [this]
      exact hinv

theorem refCoherent_mqckM (t : Json → Json) (d : String → String)
    (m : List (DocumentNode × String)) (q1 q2 : DocumentNode)
    (hc : RefCoherent m q2) (hiid : q1.iid = q2.iid → q1.doc = q2.doc) :
    RefCoherent (mqckM t d m q1).2 q2 := by
  intro p hp hpq
  have hset : ∀ h, p ∈ memoSet m q1 h → p.1.doc = q2.doc := by
    intro h hmem
    rcases mem_memoSet m q1 h p hmem with hm | he
    · exact hc p hm hpq
    · rw [he] at hpq ⊢
      exact hiid hpq
  cases hl : memoLookup m q1 with
  | none =>
    have heq : (mqckM t d m q1).2 = memoSet m q1 (computeHash t d q1) := by
      simp [mqckM, hl]
    rw [heq] at hp
    exact hset _ hp
  | some h =>
    by_cases h1 : h = ""
    · have heq : (mqckM t d m q1).2 = memoSet m q1 (computeHash t d q1) := by
        simp [mqckM, hl, h1]
      rw [heq] at hp
      exact hset _ hp
    · have heq : (mqckM t d m q1).2 = m := by simp [mqckM, hl, h1]
      rw [heq] at hp
      exact hc p hp hpq

/-- C5: under the memo invariant (true of every reachable memo) and
JavaScript reference coherence, two query instances — distinct or not — whose
documents are structurally equal after normalization (`transformDocument`,
the parameter `t`) receive the same query cache key, whether either call is
served from the per-reference memo or recomputed; and the memo invariant is
preserved across the calls. -/
theorem claim5_query_key_stable (t : Json → Json) (d : String → String)
    (st : CacheState) (q1 q2 : DocumentNode)
    (hinv : MemoInv t d st.memo)
    (hc1 : RefCoherent st.memo q1) (hc2 : RefCoherent st.memo q2)
    (hiid : q1.iid = q2.iid → q1.doc = q2.doc)
    (heq : t q1.doc = t q2.doc) :
    (makeQueryCacheKey t d st q1).1
      = (makeQueryCacheKey t d (makeQueryCacheKey t d st q1).2 q2).1
    ∧ MemoInv t d (makeQueryCacheKey t d (makeQueryCacheKey t d st q1).2 q2).2.memo := by
  have hmemo : (makeQueryCacheKey t d st q1).2.memo = (mqckM t d st.memo q1).2 := rfl
  have h1 : (makeQueryCacheKey t d st q1).1 = computeHash t d q1 :=
    mqckM_correct t d st.memo q1 hinv hc1
  have hinv' : MemoInv t d (mqckM t d st.memo q1).2 := memoInv_mqckM t d st.memo q1 hinv
  have hc2' : RefCoherent (mqckM t d st.memo q1).2 q2 :=
    refCoherent_mqckM t d st.memo q1 q2 hc2 hiid
  have h2 : (makeQueryCacheKey t d (makeQueryCacheKey t d st q1).2 q2).1
      = computeHash t d q2 := by
    show (mqckM t d (makeQueryCacheKey t d st q1).2.memo q2).1 = _
    rw [hmemo]
    exact mqckM_correct t d _ q2 hinv' hc2'
  constructor
  · rw [h1, h2]
    unfold computeHash
    rw [heq]
  · show MemoInv t d (mqckM t d (makeQueryCacheKey t d st q1).2.memo q2).2
    rw [hmemo]
    exact memoInv_mqckM t d _ q2 hinv'

/-- Witness for C5: two distinct query instances with the same document get
the same key from the freshly constructed cache. -/
theorem claim5_query_key_stable_witness :
    (makeQueryCacheKey (fun j => j) (fun s => s) initialState ⟨0, Json.null⟩).1
      = (makeQueryCacheKey (fun j => j) (fun s => s)
          (makeQueryCacheKey (fun j => j) (fun s => s) initialState ⟨0, Json.null⟩).2
          ⟨1, Json.null⟩).1 :=
  (claim5_query_key_stable (fun j => j) (fun s => s) initialState ⟨0, Json.null⟩
    ⟨1, Json.null⟩
    (fun p hp => absurd hp (List.not_mem_nil p))
    (fun p hp _ => absurd hp (List.not_mem_nil p))
    (fun p hp _ => absurd hp (List.not_mem_nil p))
    (fun h => absurd h (by decide))
    rfl).1

theorem watchSet_write (t : Json → Json) (d : String → String)
    (st : CacheState) (w : WriteOptions) (qk vk : String) :
    watchSet (write t d st w) qk vk = watchSet st qk vk := rfl

theorem writeQuery_notifications_eval (t : Json → Json) (d : String → String)
    (st : CacheState) (o : WriteQueryOptions) :
    (writeQuery t d st o).notifications
      = (if optJsonEqual (storedRaw st (mqckM t d st.memo o.query).1
            (makeVariablesCacheKey o.vars)) o.data
         then []
         else (watchSet st (mqckM t d st.memo o.query).1
            (makeVariablesCacheKey o.vars)).map
              (fun w => (⟨w, o.data, true⟩ : WatchNotification))) := by
  cases he : optJsonEqual (storedRaw st (mqckM t d st.memo o.query).1
      (makeVariablesCacheKey o.vars)) o.data with
  | true =>
    have he' := he
    unfold storedRaw at he'
    simp [writeQuery, he']
  | false =>
    have he' := he
    unfold storedRaw at he'
    simp [writeQuery, he', watchSet_write]
    rfl

theorem filter_map_watch_nil (l : List Nat) (r : Json) (c : Bool) (wid : Nat)
    (hw : wid ∉ l) :
    ((l.map (fun w => (⟨w, r, c⟩ : WatchNotification))).filter
      (fun n => n.wid == wid)) = [] := by
  induction l with
  | nil => rfl
  | cons a rest ih =>
    have ha : a ≠ wid := fun h => hw (h ▸ List.mem_cons_self a rest)
    have hrest : wid ∉ rest := fun h => hw (List.mem_cons_of_mem a h)
    simp [ha, ih hrest]

theorem filter_map_watch_single (l : List Nat) (r : Json) (c : Bool) (wid : Nat)
    (hnd : l.Nodup) (hmem : wid ∈ l) :
    ((l.map (fun w => (⟨w, r, c⟩ : WatchNotification))).filter
      (fun n => n.wid == wid)) = [⟨wid, r, c⟩] := by
  induction l with
  | nil => cases hmem
  | cons a rest ih =>
    rcases List.mem_cons.mp hmem with ha | hrest
    · subst ha
      have hnot : wid ∉ rest := (List.nodup_cons.mp hnd).1
      simp
      exact fun x hx hxe => hnot (hxe ▸ hx)
    · have ha : a ≠ wid := by
        intro h
        subst h
        exact (List.nodup_cons.mp hnd).1 hrest
      simp [ha, ih (List.nodup_cons.mp hnd).2 hrest]

/-- C2: for a watcher registered at key K = (query hash, variables key), a
`writeQuery` call at K whose new data is not deep-equal to the value stored
at K (absence counting as a difference) invokes that watcher exactly once,
with the new result marked complete; a `writeQuery` call whose new data is
deep-equal to the stored value invokes no watcher at all. -/
theorem claim2_change_gated_notification (t : Json → Json) (d : String → String)
    (st : CacheState) (o : WriteQueryOptions) (wid : Nat) (qk vk : String)
    (hqk : (mqckM t d st.memo o.query).1 = qk)
    (hvk : makeVariablesCacheKey o.vars = vk)
    (hmem : wid ∈ watchSet st qk vk)
    (hnd : (watchSet st qk vk).Nodup) :
    (optJsonEqual (storedRaw st qk vk) o.data = false →
      ((writeQuery t d st o).notifications.filter (fun n => n.wid == wid))
        = [⟨wid, o.data, true⟩])
    ∧ (optJsonEqual (storedRaw st qk vk) o.data = true →
      (writeQuery t d st o).notifications = []) := by
  subst hqk
  subst hvk
  constructor
  · intro hne
    rw [writeQuery_notifications_eval, hne]
    simp only [Bool.false_eq_true, if_false]
    exact filter_map_watch_single _ _ _ _ hnd hmem
  · intro heq
    rw [writeQuery_notifications_eval, heq]
    simp

/-- Witness for C2: a watcher registered via `watch` at a concrete key is
notified exactly once, with the new data marked complete, by a `writeQuery`
that changes the value at that key. -/
theorem claim2_change_gated_notification_witness :
    (5 ∈ watchSet
        (watchOp (fun j => j) (fun s => s) initialState ⟨0, Json.null⟩ (Json.obj []) 5)
        "null" "\x7b\x7d")
    ∧ ((writeQuery (fun j => j) (fun s => s)
          (watchOp (fun j => j) (fun s => s) initialState ⟨0, Json.null⟩ (Json.obj []) 5)
          ⟨⟨0, Json.null⟩, Json.obj [], Json.num 1⟩).notifications.filter
            (fun n => n.wid == 5)) = [⟨5, Json.num 1, true⟩] :=
  ⟨by decide,
   (claim2_change_gated_notification (fun j => j) (fun s => s)
      (watchOp (fun j => j) (fun s => s) initialState ⟨0, Json.null⟩ (Json.obj []) 5)
      ⟨⟨0, Json.null⟩, Json.obj [], Json.num 1⟩ 5 "null" "\x7b\x7d"
      (by decide) (by decide) (by decide) (by decide)).1 (by decide)⟩

theorem widOnlyAt_spec (st : CacheState) (wid : Nat) (qk vk : String)
    (honly : widOnlyAt st wid qk vk = true) :
    ∀ qk' vk', wid ∈ watchSet st qk' vk' → qk' = qk ∧ vk' = vk := by
  intro qk' vk' hmem
  unfold watchSet at hmem
  cases h1 : alookup st.watches qk' with
  | none => rw [h1] at hmem; cases hmem
  | some qc =>
    rw [h1] at hmem
    cases h2 : alookup qc vk' with
    | none => simp [h2] at hmem
    | some s =>
      simp only [h2, Option.getD_some] at hmem
      have hq := alookup_mem _ _ _ h1
      have hv := alookup_mem _ _ _ h2
      unfold widOnlyAt at honly
      rw [List.all_eq_true] at honly
      have h3 := honly (qk', qc) hq
      rw [List.all_eq_true] at h3
      have h4 := h3 (vk', s) hv
      simp only [Bool.or_eq_true, Bool.not_eq_true', Bool.and_eq_true, beq_iff_eq] at h4
      rcases h4 with h5 | h5
      · have hc : s.contains wid = true := List.elem_eq_true_of_mem hmem
        rw [hc] at h5
        cases h5
      · exact h5

theorem watchSet_unwatch (st : CacheState) (qk vk : String) (wid : Nat)
    (qk' vk' : String) :
    watchSet (unwatch st qk vk wid) qk' vk'
      = (if qk' = qk ∧ vk' = vk
         then (watchSet st qk vk).filter (fun w => !(w == wid))
         else watchSet st qk' vk') := by
  cases h1 : alookup st.watches qk with
  | none =>
    have hu : unwatch st qk vk wid = st := by simp [unwatch, h1]
    rw [hu]
    by_cases hk : qk' = qk ∧ vk' = vk
    · rw [if_pos hk, hk.1, hk.2]
      unfold watchSet
      rw [h1]
      simp
    · rw [if_neg hk]
  | some qc =>
    cases h2 : alookup qc vk with
    | none =>
      have hu : unwatch st qk vk wid = st := by simp [unwatch, h1, h2]
      rw [hu]
      by_cases hk : qk' = qk ∧ vk' = vk
      · rw [if_pos hk, hk.1, hk.2]
        unfold watchSet
        rw [h1]
        simp [h2]
      · rw [if_neg hk]
    | some s =>
      have hu : unwatch st qk vk wid
          = { st with
              watches := aset st.watches qk
                (aset qc vk (s.filter (fun w => !(w == wid)))) } := by
        simp [unwatch, h1, h2]
      rw [hu]
      by_cases hq : qk' = qk
      · subst hq
        by_cases hv : vk' = vk
        · subst hv
          rw [if_pos ⟨rfl, rfl⟩]
          unfold watchSet
          rw [alookup_aset_self, h1]
          simp [alookup_aset_self, h2]
        · rw [if_neg (fun hc => hv hc.2)]
          unfold watchSet
          rw [alookup_aset_self, h1]
          simp [alookup_aset_ne qc vk vk' _ hv]
      · rw [if_neg (fun hc => hq hc.1)]
        unfold watchSet
        rw [alookup_aset_ne st.watches qk qk' _ hq]

/-- The registration `wid` occurs in no watch set of the registry. -/
def WidFree (st : CacheState) (wid : Nat) : Prop :=
  ∀ qk vk, wid ∉ watchSet st qk vk

theorem widFree_unwatch (st : CacheState) (wid : Nat) (qk vk : String)
    (honly : widOnlyAt st wid qk vk = true) :
    WidFree (unwatch st qk vk wid) wid := by
  intro qk' vk' hmem
  rw [watchSet_unwatch] at hmem
  by_cases hk : qk' = qk ∧ vk' = vk
  · rw [if_pos hk] at hmem
    have := List.of_mem_filter hmem
    simp at this
  · rw [if_neg hk] at hmem
    exact hk (widOnlyAt_spec st wid qk vk honly qk' vk' hmem)

theorem widFree_writeQuery (t : Json → Json) (d : String → String)
    (st : CacheState) (o : WriteQueryOptions) (wid : Nat)
    (hf : WidFree st wid) :
    WidFree (writeQuery t d st o).state wid := by
  intro qk vk
  have hws : watchSet (writeQuery t d st o).state qk vk = watchSet st qk vk := rfl
  rw [hws]
  exact hf qk vk

theorem writeQuery_notifs_wid (t : Json → Json) (d : String → String)
    (st : CacheState) (o : WriteQueryOptions) (n : WatchNotification)
    (hn : n ∈ (writeQuery t d st o).notifications) :
    n.wid ∈ watchSet st (mqckM t d st.memo o.query).1 (makeVariablesCacheKey o.vars) := by
  rw [writeQuery_notifications_eval] at hn
  by_cases he : optJsonEqual (storedRaw st (mqckM t d st.memo o.query).1
      (makeVariablesCacheKey o.vars)) o.data = true
  · rw [if_pos he] at hn
    cases hn
  · rw [if_neg he] at hn
    obtain ⟨w, hw, hwn⟩ := List.mem_map.mp hn
    rw [← hwn]
    exact hw

theorem runWrites_widFree (t : Json → Json) (d : String → String)
    (ws : List WriteQueryOptions) (st : CacheState) (wid : Nat)
    (hf : WidFree st wid) :
    ∀ n ∈ (runWrites t d st ws).2, n.wid ≠ wid := by
  induction ws generalizing st with
  | nil => intro n hn; cases hn
  | cons o os ih =>
    intro n hn
    have hn' : n ∈ (writeQuery t d st o).notifications
        ∨ n ∈ (runWrites t d (writeQuery t d st o).state os).2 := by
      have : (runWrites t d st (o :: os)).2
          = (writeQuery t d st o).notifications
            ++ (runWrites t d (writeQuery t d st o).state os).2 := rfl
      rw [this] at hn
      exact List.mem_append.mp hn
    rcases hn' with h | h
    · intro heq
      have := writeQuery_notifs_wid t d st o n h
      rw [heq] at this
      exact hf _ _ this
    · exact ih (writeQuery t d st o).state (widFree_writeQuery t d st o wid hf) n h

/-- C7: after invoking the unsubscribe function returned by a watch
registration (a registration living in exactly one key's set, as every real
registration does), that registration is never invoked by any subsequent
sequence of `writeQuery` calls; every other registration on the same
(query hash, variables key) stays registered, and is still notified by a
subsequent `writeQuery` at that key whose data differs from the stored
value. -/
theorem claim7_unsubscribe_isolation (t : Json → Json) (d : String → String)
    (st : CacheState) (qk vk : String) (wid : Nat) (ws : List WriteQueryOptions)
    (honly : widOnlyAt st wid qk vk = true) :
    (∀ n ∈ (runWrites t d (unwatch st qk vk wid) ws).2, n.wid ≠ wid)
    ∧ (∀ w', w' ≠ wid →
        (w' ∈ watchSet (unwatch st qk vk wid) qk vk ↔ w' ∈ watchSet st qk vk))
    ∧ (∀ (o : WriteQueryOptions) (w' : Nat), w' ≠ wid →
        w' ∈ watchSet st qk vk →
        (mqckM t d (unwatch st qk vk wid).memo o.query).1 = qk →
        makeVariablesCacheKey o.vars = vk →
        optJsonEqual (storedRaw (unwatch st qk vk wid) qk vk) o.data = false →
        (⟨w', o.data, true⟩ : WatchNotification)
          ∈ (writeQuery t d (unwatch st qk vk wid) o).notifications) := by
  have hws : watchSet (unwatch st qk vk wid) qk vk
      = (watchSet st qk vk).filter (fun w => !(w == wid)) := by
    rw [watchSet_unwatch, if_pos ⟨rfl, rfl⟩]
  refine ⟨?_, ?_, ?_⟩
  · exact runWrites_widFree t d ws _ wid (widFree_unwatch st wid qk vk honly)
  · intro w' hw'
    rw [hws]
    constructor
    · intro hm
      exact (List.mem_filter.mp hm).1
    · intro hm
      exact List.mem_filter.mpr ⟨hm, by simp [hw']⟩
  · intro o w' hw' hmem hq hv hne
    rw [writeQuery_notifications_eval, hq, hv, hne]
    simp only [Bool.false_eq_true, if_false]
    refine List.mem_map.mpr ⟨w', ?_, rfl⟩
    rw [hws]
    exact List.mem_filter.mpr ⟨hmem, by simp [hw']⟩

/-- Witness for C7: with two watchers (ids 1 and 2) registered via `watch` at
the same concrete key, unsubscribing watcher 1 and then running a changing
`writeQuery` never notifies watcher 1. -/
theorem claim7_unsubscribe_isolation_witness :
    widOnlyAt
      (watchOp (fun j => j) (fun s => s)
        (watchOp (fun j => j) (fun s => s) initialState ⟨0, Json.null⟩ (Json.obj []) 1)
        ⟨0, Json.null⟩ (Json.obj []) 2)
      1 "null" "\x7b\x7d" = true
    ∧ ∀ n ∈ (runWrites (fun j => j) (fun s => s)
        (unwatch
          (watchOp (fun j => j) (fun s => s)
            (watchOp (fun j => j) (fun s => s) initialState ⟨0, Json.null⟩
              (Json.obj []) 1)
            ⟨0, Json.null⟩ (Json.obj []) 2)
          "null" "\x7b\x7d" 1)
        [⟨⟨0, Json.null⟩, Json.obj [], Json.num 3⟩]).2, n.wid ≠ 1 :=
  ⟨by decide,
   (claim7_unsubscribe_isolation (fun j => j) (fun s => s)
      (watchOp (fun j => j) (fun s => s)
        (watchOp (fun j => j) (fun s => s) initialState ⟨0, Json.null⟩ (Json.obj []) 1)
        ⟨0, Json.null⟩ (Json.obj []) 2)
      "null" "\x7b\x7d" 1 [⟨⟨0, Json.null⟩, Json.obj [], Json.num 3⟩]
      (by decide)).1⟩
